import Mathlib

/-!
Stack.h: a singly linked stack with forward iterators.

A shallow embedding of `src/Stack.h` and the properties of its operations.

* `std::unique_ptr<Node>` is the inductive type `NodePtr`: either `nullptr` or the
  owner of one node, which holds `data` and owns `next`.  Single ownership is what
  makes the chain a finite, acyclic, unshared list of nodes.
* A member function is a function of the object state (`Stack T`) that returns the
  state after the call.  A call that can throw returns `Except Exception _`
  together with the state the object is left in.
* Dereferencing a null pointer has no defined behaviour: such a step returns
  `none`.  The theorems show that `pop()` and `top()` never reach it, and when
  `emplace` does not.
* `int` results are `Int` values; the counter of `size()` is exact for chains of
  fewer than `2^31` nodes, the only ones for which C++ defines `size++`.
-/

namespace GenericStack

/-! ## Data model -/

/-- A `std::unique_ptr<Node>`: `nullptr`, or the owner of a `Node` made of its
`data` and of the `next` pointer it owns (`Stack.h` lines 17-34). -/
inductive NodePtr (T : Type) where
  | nullptr : NodePtr T
  | node (data : T) (next : NodePtr T) : NodePtr T
deriving DecidableEq

/-- The class `Stack<T>`: its only member is `front`, `nullptr` by default
(`Stack.h` line 35); `Stack() = default` is the structure with the default field. -/
structure Stack (T : Type) where
  front : NodePtr T := NodePtr.nullptr
deriving DecidableEq

/-- The exceptions thrown by the container: `std::out_of_range` with its message. -/
inductive Exception where
  | out_of_range (what : String) : Exception
deriving DecidableEq

variable {T : Type}

/-- The head-to-tail sequence of the values held by a chain (the abstraction used
to state the properties; it is not part of the program). -/
def NodePtr.toList : NodePtr T → List T
  | NodePtr.nullptr => []
  | NodePtr.node data next => data :: next.toList

/-- The chain whose head-to-tail values are the given list. -/
def NodePtr.ofList : List T → NodePtr T
  | [] => NodePtr.nullptr
  | x :: xs => NodePtr.node x (NodePtr.ofList xs)

/-- The head-to-tail sequence of the values of a stack. -/
def Stack.toList (s : Stack T) : List T := s.front.toList

/-- The stack whose head-to-tail values are the given list. -/
def Stack.ofList (xs : List T) : Stack T := { front := NodePtr.ofList xs }

/-- The test `if (p)` / `p != nullptr` on a `unique_ptr`. -/
def NodePtr.isNonNull : NodePtr T → Bool
  | NodePtr.nullptr => false
  | NodePtr.node _ _ => true

/-- The access `p->data`; undefined on `nullptr`. -/
def NodePtr.data? : NodePtr T → Option T
  | NodePtr.nullptr => none
  | NodePtr.node data _ => some data

/-- The access `p->next`; undefined on `nullptr`. -/
def NodePtr.next? : NodePtr T → Option (NodePtr T)
  | NodePtr.nullptr => none
  | NodePtr.node _ next => some next

/-! ## Stack operations -/

/-- `bool empty() const {return front == nullptr;}` (line 74). -/
def Stack.empty (s : Stack T) : Bool := !s.front.isNonNull

/-- The loop of `size()` (lines 207-208): `current` walks the chain and `size` is
incremented once for each node. -/
def Stack.sizeLoop : NodePtr T → Int → Int
  | NodePtr.nullptr, size => size
  | NodePtr.node _ next, size => Stack.sizeLoop next (size + 1)

/-- `int size() const` (lines 204-210). -/
def Stack.size (s : Stack T) : Int := Stack.sizeLoop s.front 0

/-- `void push(const T& theData)` (lines 212-220): a new node with a null `next`,
which takes over `front` when `front` is not null, becomes the new `front`. -/
def Stack.push (s : Stack T) (theData : T) : Stack T :=
  let newNode : T × NodePtr T := (theData, NodePtr.nullptr)
  let newNode : T × NodePtr T := if s.front.isNonNull then (newNode.1, s.front) else newNode
  { front := NodePtr.node newNode.1 newNode.2 }

/-- `void push(T&& theData)` (lines 222-230): the same steps, the value being moved
into the node instead of copied. -/
def Stack.push_move (s : Stack T) (theData : T) : Stack T :=
  let newNode : T × NodePtr T := (theData, NodePtr.nullptr)
  let newNode : T × NodePtr T := if s.front.isNonNull then (newNode.1, s.front) else newNode
  { front := NodePtr.node newNode.1 newNode.2 }

/-- `void do_unchecked_pop()` (lines 37-39): `front = std::move(front->next)`,
undefined when `front` is null. -/
def Stack.do_unchecked_pop (s : Stack T) : Option (Stack T) :=
  s.front.next?.map fun next => { front := next }

/-- `void pop()` (lines 252-258): throws on an empty stack, before anything is
modified, and otherwise runs `do_unchecked_pop`.  The result is the outcome of the
call and the state of the stack after it. -/
def Stack.pop (s : Stack T) : Option (Except Exception Unit × Stack T) :=
  if s.empty then
    some (Except.error (Exception.out_of_range "The stack is empty!"), s)
  else
    s.do_unchecked_pop.map fun s1 => (Except.ok (), s1)

/-- `T& top()` (lines 232-240): the value of the node at `front`, or the exception
on an empty stack.  The result is the outcome and the state after the call. -/
def Stack.top (s : Stack T) : Option (Except Exception T × Stack T) :=
  if !s.empty then
    s.front.data?.map fun data => (Except.ok data, s)
  else
    some (Except.error (Exception.out_of_range "The stack is empty!"), s)

/-- `const T& top() const` (lines 242-250). -/
def Stack.top_const (s : Stack T) : Option (Except Exception T × Stack T) :=
  if !s.empty then
    s.front.data?.map fun data => (Except.ok data, s)
  else
    some (Except.error (Exception.out_of_range "The stack is empty!"), s)

/-- A call returned normally. -/
def returns {α σ : Type} (r : Option (Except Exception α × σ)) : Prop :=
  ∃ a st, r = some (Except.ok a, st)

/-- A call failed with the empty-container error, `std::out_of_range`. -/
def failsEmpty {α σ : Type} (r : Option (Except Exception α × σ)) : Prop :=
  ∃ what st, r = some (Except.error (Exception.out_of_range what), st)

/-! ## Value semantics -/

/-- The loop of the copy constructor (lines 143-144): `loop` walks the source chain
from its head and each `loop->data` is pushed on the stack under construction. -/
def Stack.copyLoop : NodePtr T → Stack T → Stack T
  | NodePtr.nullptr, self => self
  | NodePtr.node data next, self => Stack.copyLoop next (self.push data)

/-- `Stack(Stack const& source)` (lines 140-151): the loop runs on a stack whose
`front` is null.  The `catch` block serves a `push` that throws (a failed
allocation or copy of a value), which does not occur here. -/
def Stack.copy_constructor (source : Stack T) : Stack T :=
  Stack.copyLoop source.front {}

/-- `void swap(Stack& other) noexcept` (lines 178-182): `std::swap` of the two
`front` pointers.  The result is the pair of `*this` and `other` after the call. -/
def Stack.swap (self other : Stack T) : Stack T × Stack T :=
  ({ front := other.front }, { front := self.front })

/-- `Stack(Stack&& move) noexcept` (lines 153-156): `move.swap(*this)` on a `*this`
whose `front` is null.  The result is the pair of the constructed stack and of
`move` after the call. -/
def Stack.move_constructor (move : Stack T) : Stack T × Stack T :=
  let r := move.swap {}
  (r.2, r.1)

/-- `Stack& operator=(Stack const& rhs)` (lines 171-176): a local `copy` of `rhs`
is built and swapped with `*this`; the local then goes out of scope with the
previous chain of `*this`.  The result is `*this` after the call. -/
def Stack.copy_assign (self rhs : Stack T) : Stack T :=
  let copy := Stack.copy_constructor rhs
  (self.swap copy).1

/-! ## Objects and references -/

/-- The stack objects of a program, by address.  A parameter passed by reference is
an address, so that the two parameters of a call can be the same object. -/
abbrev Objects (T : Type) := Nat → Stack T

/-- The declaration `auto dst = src;`: the object at `dst` is copy-constructed from
the object at `src`. -/
def Objects.copy_construct (σ : Objects T) (dst src : Nat) : Objects T :=
  Function.update σ dst (Stack.copy_constructor (σ src))

/-- The statement `dst = src;` with the copy assignment operator. -/
def Objects.copy_assign (σ : Objects T) (dst src : Nat) : Objects T :=
  Function.update σ dst (Stack.copy_assign (σ dst) (σ src))

/-- The statement `x.pop();`: the outcome and the objects after the call. -/
def Objects.pop (σ : Objects T) (x : Nat) : Option (Except Exception Unit × Objects T) :=
  (σ x).pop.map fun r => (r.1, Function.update σ x r.2)

/-! ## Sequences of calls -/

/-- A call of `push` (by copy or by move) or of `pop`. -/
inductive Call (T : Type) where
  | push (theData : T) : Call T
  | push_move (theData : T) : Call T
  | pop : Call T

/-- A stack together with the number of `push` calls made on it and the number of
`pop` calls that returned normally. -/
structure Counted (T : Type) where
  stack : Stack T
  pushes : Int
  pops : Int

/-- One call on a counted stack.  A `pop` that throws is caught by the caller: the
stack is as the call left it and nothing is counted. -/
def Counted.call (c : Counted T) : Call T → Option (Counted T)
  | Call.push v => some { stack := c.stack.push v, pushes := c.pushes + 1, pops := c.pops }
  | Call.push_move v =>
    some { stack := c.stack.push_move v, pushes := c.pushes + 1, pops := c.pops }
  | Call.pop =>
    c.stack.pop.map fun r =>
      match r.1 with
      | Except.ok _ => { stack := r.2, pushes := c.pushes, pops := c.pops + 1 }
      | Except.error _ => { stack := r.2, pushes := c.pushes, pops := c.pops }

/-- The calls of a list, made in order. -/
def Counted.run (c : Counted T) : List (Call T) → Option (Counted T)
  | [] => some c
  | call :: calls => (c.call call).bind fun c1 => c1.run calls

/-- The number of `push` calls in a list of calls. -/
def Call.countPushes : List (Call T) → Int
  | [] => 0
  | Call.pop :: calls => Call.countPushes calls
  | _ :: calls => Call.countPushes calls + 1

/-- The values of a list pushed in order on a stack. -/
def Stack.pushAll (s : Stack T) : List T → Stack T
  | [] => s
  | v :: vs => (s.push v).pushAll vs

/-! ## Iterators -/

/-- The class `Stack<T>::iterator` (lines 84-109).  The raw pointer `Node* node` is
the chain that starts at the node pointed to, `nullptr` for the null pointer: the
nodes of one stack start chains of different lengths, so two pointers into one
stack are equal exactly when they are the same chain. -/
structure Stack.iterator (T : Type) where
  node : NodePtr T := NodePtr.nullptr
  before_begin : Bool := false
deriving DecidableEq

/-- `iterator begin()` (lines 288-291): `front.get()`, converted by the constructor
with `before = false`. -/
def Stack.begin (s : Stack T) : Stack.iterator T := { node := s.front }

/-- `iterator end()` (lines 293-296): `return {};`. -/
def Stack.end_ (_s : Stack T) : Stack.iterator T := {}

/-- `iterator before_begin()` (lines 298-301): `{ front.get(), true }`. -/
def Stack.before_begin (s : Stack T) : Stack.iterator T :=
  { node := s.front, before_begin := true }

/-- `iterator& operator++()` (lines 261-267): clears the flag if it is set, and
otherwise moves to `node->next.get()`, which is undefined on a null `node`. -/
def Stack.iterator.increment (it : Stack.iterator T) : Option (Stack.iterator T) :=
  if it.before_begin then some { it with before_begin := false }
  else it.node.next?.map fun next => { it with node := next }

/-- `bool operator==(iterator other)` (lines 276-279). -/
def Stack.iterator.eq [DecidableEq T] (it other : Stack.iterator T) : Bool :=
  decide (it.node = other.node) && (it.before_begin == other.before_begin)

/-- `bool operator!=(iterator other)` (lines 281-284). -/
def Stack.iterator.ne [DecidableEq T] (it other : Stack.iterator T) : Bool :=
  !(it.eq other)

/-- `T& operator*() const { return node->data; }` (line 104), undefined on a null
`node`. -/
def Stack.iterator.deref (it : Stack.iterator T) : Option T := it.node.data?

/-- The iterator after `n` increments. -/
def Stack.iterator.advance : Nat → Stack.iterator T → Option (Stack.iterator T)
  | 0, it => some it
  | n + 1, it => it.increment.bind (Stack.iterator.advance n)

/-- `std::distance(first, last)` on forward iterators, as the test calls it (line
44 of `Stack.cpp`): the loop `while (first != last) { ++first; ++n; }`, run for at
most `fuel` tests of its condition. -/
def distanceLoop [DecidableEq T] :
    Nat → Stack.iterator T → Stack.iterator T → Int → Option Int
  | 0, _, _, _ => none
  | fuel + 1, first, last, n =>
    if first.ne last then
      first.increment.bind fun first1 => distanceLoop fuel first1 last (n + 1)
    else some n

/-- The call `std::distance(first, last)`. -/
def distance [DecidableEq T] (fuel : Nat) (first last : Stack.iterator T) : Option Int :=
  distanceLoop fuel first last 0

/-- The values met by the traversal `for (it = first; it != last; ++it)` that reads
`*it` at each step, run for at most `fuel` tests of its condition. -/
def traverse [DecidableEq T] :
    Nat → Stack.iterator T → Stack.iterator T → Option (List T)
  | 0, _, _ => none
  | fuel + 1, first, last =>
    if first.ne last then
      first.deref.bind fun v =>
        first.increment.bind fun first1 =>
          (traverse fuel first1 last).map fun vs => v :: vs
    else some []

/-! ## Move assignment and the free `swap` -/

/-- `Stack& operator=(Stack&& move) noexcept` (lines 158-162): `move.swap(*this)`.
The result is the pair of `*this` and of `move` after the call. -/
def Stack.move_assign (self move : Stack T) : Stack T × Stack T :=
  let r := move.swap self
  (r.2, r.1)

/-- The free function `swap(Stack<T>& a, Stack<T>& b) noexcept` (lines 198-202):
`a.swap(b)`.  The result is the pair of `a` and `b` after the call. -/
def swap (a b : Stack T) : Stack T × Stack T := a.swap b

/-- The statement `a.swap(b);` on the objects at two addresses, which can be the
same one: `std::swap` of a pointer with itself leaves it as it was. -/
def Objects.swap (σ : Objects T) (a b : Nat) : Objects T :=
  let r := (σ a).swap (σ b)
  Function.update (Function.update σ a r.1) b r.2

/-- The statement `dst = std::move(src);` with the move assignment operator, whose
body is `src.swap(dst)`. -/
def Objects.move_assign (σ : Objects T) (dst src : Nat) : Objects T :=
  σ.swap src dst

/-! ## Const iterators -/

/-- The class `Stack<T>::const_iterator` (lines 111-137), with the same two members
as `iterator`. -/
structure Stack.const_iterator (T : Type) where
  node : NodePtr T := NodePtr.nullptr
  before_begin : Bool := false
deriving DecidableEq

/-- `operator const_iterator() const noexcept { return const_iterator{ node }; }`
(line 98): the constructor of line 126 is called with the node only, so with its
default `before = false`. -/
def Stack.iterator.to_const_iterator (it : Stack.iterator T) : Stack.const_iterator T :=
  { node := it.node }

/-- `const_iterator begin() const` (lines 330-333). -/
def Stack.begin_const (s : Stack T) : Stack.const_iterator T := { node := s.front }

/-- `const_iterator end() const` (lines 335-338): `return {};`. -/
def Stack.end_const (_s : Stack T) : Stack.const_iterator T := {}

/-- `const_iterator cbegin() const` (lines 340-343): `return begin();`. -/
def Stack.cbegin (s : Stack T) : Stack.const_iterator T := s.begin_const

/-- `const_iterator cend() const` (lines 345-348): `return end();`. -/
def Stack.cend (s : Stack T) : Stack.const_iterator T := s.end_const

/-- `const_iterator before_begin() const` (lines 350-353): `{ front.get(), true }`. -/
def Stack.before_begin_const (s : Stack T) : Stack.const_iterator T :=
  { node := s.front, before_begin := true }

/-- `const_iterator cbefore_begin() const` (lines 355-358): `return before_begin();`. -/
def Stack.cbefore_begin (s : Stack T) : Stack.const_iterator T := s.before_begin_const

/-- `const_iterator& operator++()` (lines 304-310). -/
def Stack.const_iterator.increment (it : Stack.const_iterator T) :
    Option (Stack.const_iterator T) :=
  if it.before_begin then some { it with before_begin := false }
  else it.node.next?.map fun next => { it with node := next }

/-- `bool operator==(const_iterator other)` (lines 319-322). -/
def Stack.const_iterator.eq [DecidableEq T] (it other : Stack.const_iterator T) : Bool :=
  decide (it.node = other.node) && (it.before_begin == other.before_begin)

/-- `bool operator!=(const_iterator other)` (lines 324-327). -/
def Stack.const_iterator.ne [DecidableEq T] (it other : Stack.const_iterator T) : Bool :=
  !(it.eq other)

/-- `const T& operator*() const { return node->data; }` (line 132), undefined on a
null `node`. -/
def Stack.const_iterator.deref (it : Stack.const_iterator T) : Option T := it.node.data?

/-- The const iterator after `n` increments. -/
def Stack.const_iterator.advance :
    Nat → Stack.const_iterator T → Option (Stack.const_iterator T)
  | 0, it => some it
  | n + 1, it => it.increment.bind (Stack.const_iterator.advance n)

/-! ## `emplace` -/

/-- Modelled from the spec: the member `emplace_front`, which `emplace` calls at
line 188 and which `Stack.h` neither declares nor defines.  The spec says of this
branch that "the new element becomes the new head": a node made of the value
constructed from `args` and of the previous `front` becomes `front`. -/
def Stack.emplace_front (s : Stack T) (args : T) : Stack T :=
  { front := NodePtr.node args s.front }

/-- The write `*p = new` through a raw pointer `p` into a chain: the chain in which
the node that `target` points to, found by walking from the head, is replaced by
`new`.  A `target` that is no node of the chain gives `none`: the write would fall
outside the stack. -/
def NodePtr.assignAt [DecidableEq T] (target new : NodePtr T) :
    NodePtr T → Option (NodePtr T)
  | NodePtr.nullptr => none
  | NodePtr.node data next =>
    if NodePtr.node data next = target then some new
    else (NodePtr.assignAt target new next).map fun next1 => NodePtr.node data next1

/-- `iterator emplace(const_iterator pos, Args&&... args)` (lines 184-196), the
value constructed from `args` being `args` itself.  With the flag of `pos` set,
`emplace_front` runs and `begin()` is returned.  Otherwise `pos.node->next` is
read, which is undefined on a null `pos.node`; if it is not null, the node at
`pos.node` gets as `next` a new node made of `args` and of the previous `next`
(the constructor of lines 21-23), and the iterator `{ pos.node->next.get() }` is
returned; if it is null, the body ends without reaching a `return`, which is
undefined for a function that returns a value.  The result is `none` for an
undefined call, and otherwise the stack after the call and the iterator returned
(every defined call returns one). -/
def Stack.emplace [DecidableEq T] (s : Stack T) (pos : Stack.const_iterator T) (args : T) :
    Option (Stack T × Option (Stack.iterator T)) :=
  if pos.before_begin then
    let s1 := s.emplace_front args
    some (s1, some s1.begin)
  else
    match pos.node with
    | NodePtr.nullptr => none
    | NodePtr.node data next =>
      if next.isNonNull then
        let newNode : NodePtr T := NodePtr.node args next
        (NodePtr.assignAt pos.node (NodePtr.node data newNode) s.front).map fun front1 =>
          ({ front := front1 }, some { node := newNode })
      else none

/-! ## Linear search -/

/-- `std::find(first, last, value)`, as the test calls it (line 48 of `Stack.cpp`):
the loop `for (; first != last; ++first) if (*first == value) return first;`
followed by `return last;`, run for at most `fuel` tests of its condition. -/
def find [DecidableEq T] :
    Nat → Stack.iterator T → Stack.iterator T → T → Option (Stack.iterator T)
  | 0, _, _, _ => none
  | fuel + 1, first, last, value =>
    if first.ne last then
      first.deref.bind fun x =>
        if x = value then some first
        else first.increment.bind fun first1 => find fuel first1 last value
    else some last

/-! ## Basic facts about the chain -/

theorem sizeLoop_eq (p : NodePtr T) (n : Int) :
    Stack.sizeLoop p n = n + (p.toList.length : Int) := by
  induction p generalizing n with
  | nullptr => simp [Stack.sizeLoop, NodePtr.toList]
  | node data next ih =>
    simp only [Stack.sizeLoop, NodePtr.toList, List.length_cons, ih]
    push_cast
    ring

theorem size_eq_length (s : Stack T) : s.size = (s.toList.length : Int) := by
  simp [Stack.size, Stack.toList, sizeLoop_eq]

theorem toList_ofList (xs : List T) : (Stack.ofList xs).toList = xs := by
  induction xs with
  | nil => rfl
  | cons x xs ih =>
    simp only [Stack.ofList, Stack.toList, NodePtr.ofList, NodePtr.toList] at ih ⊢
    rw [ih]

theorem nodePtr_ofList_toList (p : NodePtr T) : NodePtr.ofList p.toList = p := by
  induction p with
  | nullptr => rfl
  | node data next ih => simp [NodePtr.toList, NodePtr.ofList, ih]

theorem ofList_toList (s : Stack T) : Stack.ofList s.toList = s := by
  cases s with
  | mk front => simp [Stack.ofList, Stack.toList, nodePtr_ofList_toList]

theorem empty_iff_toList (s : Stack T) : s.empty = true ↔ s.toList = [] := by
  cases s with
  | mk front => cases front <;> simp [Stack.empty, NodePtr.isNonNull, Stack.toList, NodePtr.toList]

theorem push_front (s : Stack T) (v : T) :
    s.push v = { front := NodePtr.node v s.front } := by
  cases s with
  | mk front => cases front <;> simp [Stack.push, NodePtr.isNonNull]

theorem push_move_eq_push (s : Stack T) (v : T) : s.push_move v = s.push v := rfl

theorem push_toList (s : Stack T) (v : T) : (s.push v).toList = v :: s.toList := by
  rw [push_front]
  rfl

theorem empty_eq_false_iff (s : Stack T) :
    s.empty = false ↔ ∃ data next, s = { front := NodePtr.node data next } := by
  cases s with
  | mk front =>
    cases front with
    | nullptr => simp [Stack.empty, NodePtr.isNonNull]
    | node data next => simp [Stack.empty, NodePtr.isNonNull]

theorem pop_node (data : T) (next : NodePtr T) :
    ({ front := NodePtr.node data next } : Stack T).pop
      = some (Except.ok (), { front := next }) := rfl

theorem pop_nullptr :
    ({ front := NodePtr.nullptr } : Stack T).pop
      = some (Except.error (Exception.out_of_range "The stack is empty!"),
          { front := NodePtr.nullptr }) := rfl

theorem top_node (data : T) (next : NodePtr T) :
    ({ front := NodePtr.node data next } : Stack T).top
      = some (Except.ok data, { front := NodePtr.node data next }) := rfl

theorem top_nullptr :
    ({ front := NodePtr.nullptr } : Stack T).top
      = some (Except.error (Exception.out_of_range "The stack is empty!"),
          { front := NodePtr.nullptr }) := rfl

theorem top_const_eq_top (s : Stack T) : s.top_const = s.top := rfl

theorem size_nonneg (s : Stack T) : 0 ≤ s.size := by
  rw [size_eq_length]
  exact Int.natCast_nonneg _

theorem empty_iff_size (s : Stack T) : s.empty = true ↔ s.size = 0 := by
  rw [empty_iff_toList, size_eq_length]
  constructor
  · intro h
    simp [h]
  · intro h
    have h0 : s.toList.length = 0 := by exact_mod_cast h
    exact List.length_eq_zero.mp h0

theorem copyLoop_toList (p : NodePtr T) (self : Stack T) :
    (Stack.copyLoop p self).toList = p.toList.reverse ++ self.toList := by
  induction p generalizing self with
  | nullptr => simp [Stack.copyLoop, NodePtr.toList]
  | node data next ih =>
    simp [Stack.copyLoop, NodePtr.toList, ih, push_toList]

theorem copy_constructor_toList (source : Stack T) :
    source.copy_constructor.toList = source.toList.reverse := by
  rw [Stack.copy_constructor, copyLoop_toList]
  simp [Stack.toList, NodePtr.toList]

theorem copy_constructor_size (source : Stack T) :
    source.copy_constructor.size = source.size := by
  rw [size_eq_length, size_eq_length, copy_constructor_toList, List.length_reverse]

theorem copy_assign_eq (self rhs : Stack T) :
    self.copy_assign rhs = rhs.copy_constructor := rfl

theorem pushAll_toList (s : Stack T) (vs : List T) :
    (s.pushAll vs).toList = vs.reverse ++ s.toList := by
  induction vs generalizing s with
  | nil => simp [Stack.pushAll]
  | cons v vs ih => simp [Stack.pushAll, ih, push_toList]

theorem advance_node (p : NodePtr T) (k : Nat) (hk : k ≤ p.toList.length) :
    Stack.iterator.advance k { node := p }
      = some { node := NodePtr.ofList (p.toList.drop k) } := by
  induction k generalizing p with
  | zero => simp [Stack.iterator.advance, nodePtr_ofList_toList]
  | succ k ih =>
    cases p with
    | nullptr => simp [NodePtr.toList] at hk
    | node data next =>
      have hk1 : k ≤ next.toList.length := by
        simpa [NodePtr.toList] using hk
      simp [Stack.iterator.advance, Stack.iterator.increment, NodePtr.next?,
        NodePtr.toList, ih next hk1]

theorem distanceLoop_node [DecidableEq T] (p : NodePtr T) (fuel : Nat) (n : Int)
    (hf : p.toList.length < fuel) :
    distanceLoop fuel { node := p } ({} : Stack.iterator T) n
      = some (n + (p.toList.length : Int)) := by
  induction p generalizing fuel n with
  | nullptr =>
    cases fuel with
    | zero => simp at hf
    | succ fuel => simp [distanceLoop, Stack.iterator.ne, Stack.iterator.eq, NodePtr.toList]
  | node data next ih =>
    cases fuel with
    | zero => simp at hf
    | succ fuel =>
      have hf1 : next.toList.length < fuel := by
        simpa [NodePtr.toList] using hf
      simp only [distanceLoop, Stack.iterator.ne, Stack.iterator.eq,
        Stack.iterator.increment, NodePtr.next?, NodePtr.toList]
      simp only [reduceCtorEq, decide_False, Bool.false_and, Bool.not_false, if_true,
        Bool.false_eq_true, if_false, Option.map_some', Option.some_bind, ih fuel (n + 1) hf1,
        List.length_cons]
      push_cast
      congr 1
      ring

theorem traverse_node [DecidableEq T] (p : NodePtr T) (fuel : Nat)
    (hf : p.toList.length < fuel) :
    traverse fuel { node := p } ({} : Stack.iterator T) = some p.toList := by
  induction p generalizing fuel with
  | nullptr =>
    cases fuel with
    | zero => simp at hf
    | succ fuel => simp [traverse, Stack.iterator.ne, Stack.iterator.eq, NodePtr.toList]
  | node data next ih =>
    cases fuel with
    | zero => simp at hf
    | succ fuel =>
      have hf1 : next.toList.length < fuel := by
        simpa [NodePtr.toList] using hf
      simp only [traverse, Stack.iterator.ne, Stack.iterator.eq, Stack.iterator.deref,
        Stack.iterator.increment, NodePtr.next?, NodePtr.data?, NodePtr.toList]
      simp only [reduceCtorEq, decide_False, Bool.false_and, Bool.not_false, if_true,
        Bool.false_eq_true, if_false, Option.map_some', Option.some_bind, ih fuel hf1]

theorem call_spec (c : Counted T) (call : Call T) :
    ∃ c1, c.call call = some c1
      ∧ c1.stack.size - c1.pushes + c1.pops = c.stack.size - c.pushes + c.pops
      ∧ c1.pushes = c.pushes + Call.countPushes [call] := by
  cases call with
  | push v =>
    refine ⟨_, rfl, ?_, ?_⟩
    · simp only [size_eq_length, push_toList, List.length_cons]
      push_cast
      ring
    · simp [Call.countPushes]
  | push_move v =>
    refine ⟨_, rfl, ?_, ?_⟩
    · simp only [push_move_eq_push, size_eq_length, push_toList, List.length_cons]
      push_cast
      ring
    · simp [Call.countPushes]
  | pop =>
    obtain ⟨stack, pushes, pops⟩ := c
    obtain ⟨front⟩ := stack
    cases front with
    | nullptr =>
      refine ⟨_, rfl, ?_, ?_⟩
      · simp
      · simp [Call.countPushes]
    | node data next =>
      refine ⟨_, rfl, ?_, ?_⟩
      · simp only [size_eq_length, Stack.toList, NodePtr.toList, List.length_cons]
        push_cast
        ring
      · simp [Call.countPushes]

theorem countPushes_cons (call : Call T) (calls : List (Call T)) :
    Call.countPushes (call :: calls) = Call.countPushes [call] + Call.countPushes calls := by
  cases call <;> simp [Call.countPushes] <;> ring

theorem run_spec (calls : List (Call T)) (c : Counted T) :
    ∃ c1, c.run calls = some c1
      ∧ c1.stack.size - c1.pushes + c1.pops = c.stack.size - c.pushes + c.pops
      ∧ c1.pushes = c.pushes + Call.countPushes calls := by
  induction calls generalizing c with
  | nil => exact ⟨c, rfl, rfl, by simp [Call.countPushes]⟩
  | cons call calls ih =>
    obtain ⟨c1, h1, h2, h3⟩ := call_spec c call
    obtain ⟨c2, k1, k2, k3⟩ := ih c1
    refine ⟨c2, ?_, ?_, ?_⟩
    · simp [Counted.run, h1, k1]
    · rw [k2, h2]
    · rw [k3, h3, countPushes_cons call calls]
      ring

/-! ## Facts about pointers into a chain, `emplace` and `find` -/

theorem nodePtr_toList_ofList (xs : List T) : (NodePtr.ofList xs).toList = xs := by
  induction xs with
  | nil => rfl
  | cons x xs ih => simp [NodePtr.ofList, NodePtr.toList, ih]

theorem const_advance_node (p : NodePtr T) (k : Nat) (hk : k ≤ p.toList.length) :
    Stack.const_iterator.advance k { node := p }
      = some { node := NodePtr.ofList (p.toList.drop k) } := by
  induction k generalizing p with
  | zero => simp [Stack.const_iterator.advance, nodePtr_ofList_toList]
  | succ k ih =>
    cases p with
    | nullptr => simp [NodePtr.toList] at hk
    | node data next =>
      have hk1 : k ≤ next.toList.length := by
        simpa [NodePtr.toList] using hk
      simp [Stack.const_iterator.advance, Stack.const_iterator.increment, NodePtr.next?,
        NodePtr.toList, ih next hk1]

theorem insertIdx_eq_take_append (xs : List T) (n : Nat) (v : T) (hn : n ≤ xs.length) :
    xs.insertIdx n v = xs.take n ++ v :: xs.drop n := by
  induction n generalizing xs with
  | zero => simp
  | succ n ih =>
    cases xs with
    | nil => simp at hn
    | cons x xs =>
      have hn1 : n ≤ xs.length := by simpa using hn
      simp [List.insertIdx_succ_cons, ih xs hn1]

theorem assignAt_drop [DecidableEq T] (p new : NodePtr T) (i : Nat)
    (hi : i < p.toList.length) :
    NodePtr.assignAt (NodePtr.ofList (p.toList.drop i)) new p
      = some (NodePtr.ofList (p.toList.take i ++ new.toList)) := by
  induction p generalizing i with
  | nullptr => simp [NodePtr.toList] at hi
  | node data next ih =>
    cases i with
    | zero =>
      have h0 : NodePtr.ofList ((NodePtr.node data next).toList.drop 0)
          = NodePtr.node data next := by
        rw [List.drop_zero, nodePtr_ofList_toList]
      rw [h0]
      simp [NodePtr.assignAt, nodePtr_ofList_toList]
    | succ i =>
      have hi1 : i < next.toList.length := by
        simpa [NodePtr.toList] using hi
      have hne : NodePtr.node data next ≠ NodePtr.ofList (next.toList.drop i) := by
        intro h
        have hl := congrArg (fun q => q.toList.length) h
        simp only [NodePtr.toList, nodePtr_toList_ofList, List.length_cons,
          List.length_drop] at hl
        omega
      simp only [NodePtr.toList, List.drop_succ_cons, List.take_succ_cons,
        List.cons_append, NodePtr.assignAt, if_neg hne, ih i hi1, Option.map_some',
        NodePtr.ofList]
      rfl

theorem emplace_at_index [DecidableEq T] (s : Stack T) (i : Nat) (v : T)
    (hi : i + 1 < s.toList.length) :
    s.emplace { node := NodePtr.ofList (s.toList.drop i) } v
      = some ({ front := NodePtr.ofList (s.toList.take (i + 1) ++ v :: s.toList.drop (i + 1)) },
          some { node := NodePtr.ofList (v :: s.toList.drop (i + 1)) }) := by
  have hi0 : i < s.toList.length := by omega
  have hd0 : s.toList.drop i = s.toList[i] :: s.toList.drop (i + 1) :=
    List.drop_eq_getElem_cons hi0
  have hd1 : s.toList.drop (i + 1) = s.toList[i + 1] :: s.toList.drop (i + 1 + 1) :=
    List.drop_eq_getElem_cons hi
  have hassign := assignAt_drop s.front
    (NodePtr.node s.toList[i] (NodePtr.node v (NodePtr.ofList (s.toList.drop (i + 1))))) i hi0
  have hs : s.front.toList = s.toList := rfl
  rw [hs, hd0] at hassign
  have htake : s.toList.take i ++ s.toList[i] :: v :: s.toList.drop (i + 1)
      = s.toList.take (i + 1) ++ v :: s.toList.drop (i + 1) := by
    have ht : s.toList.take (i + 1) = s.toList.take i ++ [s.toList[i]] := by
      rw [List.take_succ, List.getElem?_eq_getElem hi0]
      rfl
    rw [ht, List.append_assoc]
    rfl
  simp only [NodePtr.toList, nodePtr_toList_ofList, htake, NodePtr.ofList] at hassign
  have hnn : (NodePtr.ofList (s.toList.drop (i + 1))).isNonNull = true := by
    rw [hd1]
    rfl
  simp only [Stack.emplace, hd0, NodePtr.ofList, hnn, if_true, hassign, Option.map_some',
    Bool.false_eq_true, if_false]

theorem emplace_at_last [DecidableEq T] (s : Stack T) (i : Nat) (v : T)
    (hi : i + 1 = s.toList.length) :
    s.emplace { node := NodePtr.ofList (s.toList.drop i) } v = none := by
  have hi0 : i < s.toList.length := by omega
  have hd0 : s.toList.drop i = s.toList[i] :: s.toList.drop (i + 1) :=
    List.drop_eq_getElem_cons hi0
  have hd1 : s.toList.drop (i + 1) = [] := by
    rw [hi]
    exact List.drop_length _
  simp [Stack.emplace, hd0, hd1, NodePtr.ofList, NodePtr.isNonNull]

theorem find_node [DecidableEq T] (p : NodePtr T) (fuel : Nat) (v : T)
    (hf : p.toList.length < fuel) :
    find fuel { node := p } ({} : Stack.iterator T) v
      = some { node := NodePtr.ofList (p.toList.drop (p.toList.indexOf v)) } := by
  induction p generalizing fuel with
  | nullptr =>
    cases fuel with
    | zero => simp at hf
    | succ fuel =>
      simp [find, Stack.iterator.ne, Stack.iterator.eq, NodePtr.toList, NodePtr.ofList]
  | node data next ih =>
    cases fuel with
    | zero => simp at hf
    | succ fuel =>
      have hf1 : next.toList.length < fuel := by
        simpa [NodePtr.toList] using hf
      by_cases hd : data = v
      · simp [find, Stack.iterator.ne, Stack.iterator.eq, Stack.iterator.deref,
          NodePtr.data?, NodePtr.toList, hd, List.indexOf_cons_self, NodePtr.ofList,
          nodePtr_ofList_toList]
      · simp [find, Stack.iterator.ne, Stack.iterator.eq, Stack.iterator.deref,
          Stack.iterator.increment, NodePtr.next?, NodePtr.data?, NodePtr.toList, hd,
          List.indexOf_cons_ne _ hd, ih fuel hf1]

theorem getElem?_ne_of_lt_indexOf [DecidableEq T] (xs : List T) (v : T) (j : Nat)
    (hj : j < xs.indexOf v) : xs[j]? ≠ some v := by
  induction xs generalizing j with
  | nil => simp
  | cons x xs ih =>
    by_cases hx : x = v
    · rw [List.indexOf_cons_eq _ hx] at hj
      omega
    · rw [List.indexOf_cons_ne _ hx] at hj
      cases j with
      | zero => simpa using hx
      | succ j =>
        simp only [List.getElem?_cons_succ]
        exact ih j (by omega)

theorem emplace_cbefore_begin [DecidableEq T] (s : Stack T) (v : T) :
    s.emplace s.cbefore_begin v = some (s.emplace_front v, some (s.emplace_front v).begin)
    ∧ (s.emplace_front v).toList = v :: s.toList
    ∧ (s.emplace_front v).begin.deref = some v :=
  ⟨rfl, rfl, rfl⟩

theorem objects_swap_fst (σ : Objects T) (a b : Nat) : σ.swap a b a = σ b := by
  by_cases h : a = b
  · subst h
    simp [Objects.swap, Stack.swap]
  · simp [Objects.swap, Stack.swap, Function.update, h]

theorem objects_swap_snd (σ : Objects T) (a b : Nat) : σ.swap a b b = σ a := by
  simp [Objects.swap, Stack.swap]

theorem objects_swap_other (σ : Objects T) (a b x : Nat) (ha : x ≠ a) (hb : x ≠ b) :
    σ.swap a b x = σ x := by
  simp [Objects.swap, Function.update, ha, hb]

theorem to_const_advance (p : NodePtr T) (k : Nat) (it : Stack.iterator T)
    (hk : k ≤ p.toList.length) (h : Stack.iterator.advance k { node := p } = some it) :
    Stack.const_iterator.advance k { node := p } = some it.to_const_iterator := by
  rw [advance_node p k hk] at h
  simp only [Option.some.injEq] at h
  rw [const_advance_node p k hk, ← h]
  rfl

theorem position_at_index (s : Stack T) (i : Nat) (pos : Stack.const_iterator T)
    (hi : i ≤ s.toList.length)
    (hpos : Stack.const_iterator.advance i s.cbegin = some pos
      ∨ ∃ it, Stack.iterator.advance i s.begin = some it ∧ pos = it.to_const_iterator) :
    pos = { node := NodePtr.ofList (s.toList.drop i) } := by
  have hc := const_advance_node s.front i hi
  rcases hpos with h | ⟨it, h, rfl⟩
  · have h1 : Stack.const_iterator.advance i { node := s.front } = some pos := h
    rw [hc] at h1
    simp only [Option.some.injEq] at h1
    exact h1.symm
  · have h1 := to_const_advance s.front i it hi h
    rw [hc] at h1
    simp only [Option.some.injEq] at h1
    exact h1.symm

theorem eq_of_toList_eq (a b : Stack T) (h : a.toList = b.toList) : a = b := by
  rw [← ofList_toList a, ← ofList_toList b, h]

theorem copy_assign_toList (self rhs : Stack T) :
    (self.copy_assign rhs).toList = rhs.toList.reverse := by
  rw [copy_assign_eq, copy_constructor_toList]

/-! ## Claims -/

/-- C1: for every stack and every value `v`, `push(v)`, by copy or by move, gives
the stack whose head-to-tail sequence is `v` followed by the previous sequence:
it is not empty, `size()` is one more than before, and `top()` returns `v`. -/
theorem C1_push_prepends (s : Stack T) (v : T) :
    ((s.push v).toList = v :: s.toList
      ∧ (s.push v).empty = false
      ∧ (s.push v).size = s.size + 1
      ∧ (s.push v).top = some (Except.ok v, s.push v)
      ∧ (s.push v).top_const = some (Except.ok v, s.push v))
    ∧ ((s.push_move v).toList = v :: s.toList
      ∧ (s.push_move v).empty = false
      ∧ (s.push_move v).size = s.size + 1
      ∧ (s.push_move v).top = some (Except.ok v, s.push_move v)
      ∧ (s.push_move v).top_const = some (Except.ok v, s.push_move v)) := by
  have h : (s.push v).toList = v :: s.toList
      ∧ (s.push v).empty = false
      ∧ (s.push v).size = s.size + 1
      ∧ (s.push v).top = some (Except.ok v, s.push v)
      ∧ (s.push v).top_const = some (Except.ok v, s.push v) := by
    refine ⟨push_toList s v, ?_, ?_, ?_, ?_⟩
    · rw [push_front]; rfl
    · rw [size_eq_length, size_eq_length, push_toList]
      simp
    · rw [push_front]; rfl
    · rw [push_front]; rfl
  exact ⟨h, h⟩

/-- C1 on the default-constructed stack: after `push(2)` the stack is not empty,
and after `push(4)` its `size()` is 1. -/
theorem C1_push_prepends_witness :
    (({} : Stack Nat).push_move 2).empty = false
    ∧ (({} : Stack Nat).push_move 4).size = 1 :=
  ⟨(C1_push_prepends ({} : Stack Nat) 2).2.2.1,
    (C1_push_prepends ({} : Stack Nat) 4).2.2.2.1⟩

/-- C2: `pop()` fails with the empty-container error exactly when the stack is
empty; a failing call leaves the stack as it was, empty and of size 0; on a
non-empty stack the call returns normally. -/
theorem C2_pop_fails_iff_empty (s : Stack T) :
    (failsEmpty s.pop ↔ s.empty = true)
    ∧ (∀ e s1, s.pop = some (Except.error e, s1) →
        s1 = s ∧ s1.empty = true ∧ s1.size = 0)
    ∧ (s.empty = false → returns s.pop) := by
  obtain ⟨front⟩ := s
  cases front with
  | nullptr =>
    refine ⟨⟨fun _ => rfl, fun _ => ⟨_, _, pop_nullptr⟩⟩, ?_, ?_⟩
    · intro e s1 h
      rw [pop_nullptr] at h
      simp only [Option.some.injEq, Prod.mk.injEq] at h
      rw [← h.2]
      exact ⟨rfl, rfl, rfl⟩
    · intro h
      simp [Stack.empty, NodePtr.isNonNull] at h
  | node data next =>
    refine ⟨⟨?_, ?_⟩, ?_, ?_⟩
    · rintro ⟨what, st, h⟩
      rw [pop_node] at h
      simp at h
    · intro h
      simp [Stack.empty, NodePtr.isNonNull] at h
    · intro e s1 h
      rw [pop_node] at h
      simp at h
    · intro _
      exact ⟨_, _, pop_node data next⟩

/-- C2 at the default-constructed stack, where `pop()` fails and leaves an empty
stack of size 0, and at the stack `[7]`, where it returns. -/
theorem C2_pop_fails_iff_empty_witness :
    failsEmpty (({} : Stack Nat).pop)
    ∧ (({} : Stack Nat).pop
        = some (Except.error (Exception.out_of_range "The stack is empty!"), {})
      ∧ ({} : Stack Nat).empty = true ∧ ({} : Stack Nat).size = 0)
    ∧ (Stack.ofList [7]).empty = false
    ∧ returns (Stack.ofList [7]).pop :=
  ⟨(C2_pop_fails_iff_empty ({} : Stack Nat)).1.mpr rfl,
    ⟨rfl, ((C2_pop_fails_iff_empty ({} : Stack Nat)).2.1 _ _ rfl).2⟩,
    rfl,
    (C2_pop_fails_iff_empty (Stack.ofList [7])).2.2 rfl⟩

/-- C3: on a non-empty stack whose head-to-tail sequence is `x` followed by `xs`,
`pop()` returns and leaves exactly `xs`: `size()` is one less, and the former
second element, if there is one, is what `top()` returns. -/
theorem C3_pop_removes_head (s : Stack T) (x : T) (xs : List T)
    (h : s.toList = x :: xs) :
    ∃ s1, s.pop = some (Except.ok (), s1)
      ∧ s1.toList = xs
      ∧ s1.size = s.size - 1
      ∧ (∀ y ys, xs = y :: ys → s1.top = some (Except.ok y, s1)) := by
  obtain ⟨front⟩ := s
  cases front with
  | nullptr => simp [Stack.toList, NodePtr.toList] at h
  | node data next =>
    simp only [Stack.toList, NodePtr.toList, List.cons.injEq] at h
    refine ⟨{ front := next }, pop_node data next, h.2, ?_, ?_⟩
    · simp only [size_eq_length, Stack.toList, NodePtr.toList, List.length_cons]
      push_cast
      ring
    · intro y ys hy
      cases next with
      | nullptr =>
        rw [← h.2] at hy
        simp [NodePtr.toList] at hy
      | node d n =>
        rw [← h.2] at hy
        simp only [NodePtr.toList, List.cons.injEq] at hy
        rw [top_node, hy.1]

/-- C3 on the stack `[10,8,6,4,2]`: after `pop()`, `top()` is 8 and `size()` is 4. -/
theorem C3_pop_removes_head_witness :
    (Stack.ofList [10, 8, 6, 4, 2]).toList = 10 :: [8, 6, 4, 2]
    ∧ ∃ s1, (Stack.ofList [10, 8, 6, 4, 2]).pop = some (Except.ok (), s1)
      ∧ s1.toList = [8, 6, 4, 2]
      ∧ s1.top = some (Except.ok 8, s1)
      ∧ s1.size = 4 := by
  refine ⟨rfl, ?_⟩
  obtain ⟨s1, h1, h2, h3, h4⟩ :=
    C3_pop_removes_head (Stack.ofList [10, 8, 6, 4, 2]) 10 [8, 6, 4, 2] rfl
  refine ⟨s1, h1, h2, h4 8 [6, 4, 2] rfl, ?_⟩
  rw [h3]
  decide

/-- C4: `top()`, in its mutable and its const form, fails with the empty-container
error exactly when the stack is empty; on a non-empty stack it returns the value
of the head element, which is the value just pushed after a `push`, and the stack
is left as it was. -/
theorem C4_top_fails_iff_empty (s : Stack T) :
    ((failsEmpty s.top ↔ s.empty = true)
      ∧ (s.empty = false → ∃ x xs, s.toList = x :: xs ∧ s.top = some (Except.ok x, s))
      ∧ (∀ r s1, s.top = some (r, s1) → s1 = s)
      ∧ (∀ v, (s.push v).top = some (Except.ok v, s.push v)))
    ∧ ((failsEmpty s.top_const ↔ s.empty = true)
      ∧ (s.empty = false →
          ∃ x xs, s.toList = x :: xs ∧ s.top_const = some (Except.ok x, s))
      ∧ (∀ r s1, s.top_const = some (r, s1) → s1 = s)
      ∧ (∀ v, (s.push v).top_const = some (Except.ok v, s.push v))) := by
  have key : (failsEmpty s.top ↔ s.empty = true)
      ∧ (s.empty = false → ∃ x xs, s.toList = x :: xs ∧ s.top = some (Except.ok x, s))
      ∧ (∀ r s1, s.top = some (r, s1) → s1 = s)
      ∧ (∀ v, (s.push v).top = some (Except.ok v, s.push v)) := by
    refine ⟨?_, ?_, ?_, ?_⟩
    · obtain ⟨front⟩ := s
      cases front with
      | nullptr => exact ⟨fun _ => rfl, fun _ => ⟨_, _, top_nullptr⟩⟩
      | node data next =>
        constructor
        · rintro ⟨what, st, h⟩
          rw [top_node] at h
          simp at h
        · intro h
          simp [Stack.empty, NodePtr.isNonNull] at h
    · intro h
      obtain ⟨data, next, rfl⟩ := (empty_eq_false_iff s).mp h
      exact ⟨data, next.toList, rfl, top_node data next⟩
    · intro r s1 h
      obtain ⟨front⟩ := s
      cases front with
      | nullptr =>
        rw [top_nullptr] at h
        simp only [Option.some.injEq, Prod.mk.injEq] at h
        exact h.2.symm
      | node data next =>
        rw [top_node] at h
        simp only [Option.some.injEq, Prod.mk.injEq] at h
        exact h.2.symm
    · intro v
      rw [push_front]
      rfl
  exact ⟨key, key⟩

/-- C4 at the default-constructed stack, where `top()` fails, and at the stack
`[10,8]`, where it returns 10 and leaves the stack as it was. -/
theorem C4_top_fails_iff_empty_witness :
    failsEmpty (({} : Stack Nat).top)
    ∧ (Stack.ofList [10, 8]).empty = false
    ∧ (Stack.ofList [10, 8]).top = some (Except.ok 10, Stack.ofList [10, 8])
    ∧ (Stack.ofList [10, 8]).top_const = some (Except.ok 10, Stack.ofList [10, 8]) := by
  refine ⟨(C4_top_fails_iff_empty ({} : Stack Nat)).1.1.mpr rfl, rfl, ?_, ?_⟩
  · obtain ⟨x, xs, h1, h2⟩ := (C4_top_fails_iff_empty (Stack.ofList [10, 8])).1.2.1 rfl
    rw [h2]
    have hx : x = 10 := by
      have h3 : (Stack.ofList [10, 8]).toList = [10, 8] := rfl
      rw [h3] at h1
      simp only [List.cons.injEq] at h1
      exact h1.1.symm
    rw [hx]
  · obtain ⟨x, xs, h1, h2⟩ := (C4_top_fails_iff_empty (Stack.ofList [10, 8])).2.2.1 rfl
    rw [h2]
    have hx : x = 10 := by
      have h3 : (Stack.ofList [10, 8]).toList = [10, 8] := rfl
      rw [h3] at h1
      simp only [List.cons.injEq] at h1
      exact h1.1.symm
    rw [hx]

/-- C5: a default-constructed stack is empty and of size 0, and after each call of
any sequence of `push` and `pop` calls made on it, `size()` is the number of
pushes minus the number of pops that returned (a `pop` on an empty stack fails
and is not counted), and `empty()` holds exactly when `size()` is 0. -/
theorem C5_size_counts_calls :
    (({} : Stack T).empty = true ∧ ({} : Stack T).size = 0)
    ∧ ∀ (calls : List (Call T)) (k : Nat),
        ∃ c, Counted.run { stack := {}, pushes := 0, pops := 0 } (calls.take k) = some c
          ∧ c.pushes = Call.countPushes (calls.take k)
          ∧ c.stack.size = c.pushes - c.pops
          ∧ (c.stack.empty = true ↔ c.stack.size = 0) := by
  refine ⟨⟨rfl, rfl⟩, ?_⟩
  intro calls k
  obtain ⟨c, h1, h2, h3⟩ :=
    run_spec (calls.take k) ({ stack := {}, pushes := 0, pops := 0 } : Counted T)
  refine ⟨c, h1, ?_, ?_, empty_iff_size c.stack⟩
  · simpa using h3
  · have h0 : ({} : Stack T).size = 0 := rfl
    simp only [h0] at h2
    linarith

/-- C5 on the calls `pop, push 6, push 2, pop, pop, pop`: two pushes and two pops
that returned, and a stack of size 0 at the end. -/
theorem C5_size_counts_calls_witness :
    ∃ c, Counted.run { stack := ({} : Stack Nat), pushes := 0, pops := 0 }
          ([Call.pop, Call.push 6, Call.push_move 2, Call.pop, Call.pop, Call.pop].take 6)
          = some c
      ∧ c.pushes = 2 ∧ c.pops = 2 ∧ c.stack.size = 0 ∧ c.stack.empty = true := by
  obtain ⟨c, h1, h2, h3, h4⟩ := (C5_size_counts_calls).2
    [Call.pop, Call.push 6, Call.push_move 2, Call.pop, Call.pop, Call.pop] 6
  have h5 : Counted.run { stack := ({} : Stack Nat), pushes := 0, pops := 0 }
      ([Call.pop, Call.push 6, Call.push_move 2, Call.pop, Call.pop, Call.pop].take 6)
      = some { stack := {}, pushes := 2, pops := 2 } := rfl
  rw [h5] at h1
  simp only [Option.some.injEq] at h1
  subst h1
  exact ⟨_, h5, rfl, rfl, rfl, rfl⟩

/-- C6: for every stack, an iterator advanced from `begin()` is different from
`end()` and dereferences to the element of that rank while fewer than `size()`
increments were made, and is `end()` after exactly `size()` increments; hence
`std::distance(begin(), end())` is `size()` and the traversal reads the
head-to-tail sequence, which is the reverse of the order of the pushes.  On an
empty stack `begin()` equals `end()`. -/
theorem C6_iteration_visits_all [DecidableEq T] (s : Stack T) :
    (∀ k : Nat, (k : Int) < s.size →
        ∃ it v, Stack.iterator.advance k s.begin = some it
          ∧ it.ne s.end_ = true ∧ it.deref = some v ∧ s.toList[k]? = some v)
    ∧ (∀ k : Nat, (k : Int) = s.size → Stack.iterator.advance k s.begin = some s.end_)
    ∧ (∀ fuel : Nat, s.size < (fuel : Int) →
        distance fuel s.begin s.end_ = some s.size
          ∧ traverse fuel s.begin s.end_ = some s.toList)
    ∧ (∀ vs : List T, (Stack.pushAll {} vs).toList = vs.reverse)
    ∧ (s.empty = true → s.begin.eq s.end_ = true) := by
  refine ⟨?_, ?_, ?_, ?_, ?_⟩
  · intro k hk
    rw [size_eq_length] at hk
    have hk1 : k < s.toList.length := by exact_mod_cast hk
    have hadv := advance_node s.front k (Nat.le_of_lt hk1)
    have hdrop : s.toList.drop k = s.toList[k] :: s.toList.drop (k + 1) :=
      List.drop_eq_getElem_cons hk1
    refine ⟨_, s.toList[k], hadv, ?_, ?_, ?_⟩
    · have h1 : s.front.toList.drop k = s.toList[k] :: s.toList.drop (k + 1) := hdrop
      rw [h1]
      simp [NodePtr.ofList, Stack.iterator.ne, Stack.iterator.eq, Stack.end_]
    · have h1 : s.front.toList.drop k = s.toList[k] :: s.toList.drop (k + 1) := hdrop
      rw [h1]
      simp [NodePtr.ofList, Stack.iterator.deref, NodePtr.data?]
    · exact List.getElem?_eq_getElem hk1
  · intro k hk
    rw [size_eq_length] at hk
    have hk1 : k = s.toList.length := by exact_mod_cast hk
    have hadv := advance_node s.front k (Nat.le_of_eq hk1)
    have h1 : s.front.toList.drop k = [] := by
      rw [hk1]
      exact List.drop_length _
    rw [h1] at hadv
    exact hadv
  · intro fuel hf
    rw [size_eq_length] at hf
    have hf1 : s.front.toList.length < fuel := by exact_mod_cast hf
    refine ⟨?_, traverse_node s.front fuel hf1⟩
    have h := distanceLoop_node s.front fuel 0 hf1
    rw [zero_add] at h
    rw [size_eq_length]
    exact h
  · intro vs
    rw [pushAll_toList]
    simp [Stack.toList, NodePtr.toList]
  · intro h
    obtain ⟨front⟩ := s
    cases front with
    | nullptr => simp [Stack.begin, Stack.end_, Stack.iterator.eq]
    | node data next => simp [Stack.empty, NodePtr.isNonNull] at h

/-- C6 on the stack made by pushing 2, 4, 6, 8, 10: `size()` is 5, `top()` is 10,
`std::distance(begin(), end())` is 5, the traversal reads 10, 8, 6, 4, 2, and five
increments lead from `begin()` to `end()`; on the empty stack `begin()` equals
`end()`. -/
theorem C6_iteration_visits_all_witness :
    (Stack.pushAll {} [2, 4, 6, 8, 10]).size = 5
    ∧ (Stack.pushAll {} [2, 4, 6, 8, 10]).top
        = some (Except.ok 10, Stack.pushAll {} [2, 4, 6, 8, 10])
    ∧ distance 6 (Stack.pushAll {} [2, 4, 6, 8, 10]).begin
        (Stack.pushAll {} [2, 4, 6, 8, 10]).end_ = some 5
    ∧ traverse 6 (Stack.pushAll {} [2, 4, 6, 8, 10]).begin
        (Stack.pushAll {} [2, 4, 6, 8, 10]).end_ = some [10, 8, 6, 4, 2]
    ∧ Stack.iterator.advance 5 (Stack.pushAll {} [2, 4, 6, 8, 10]).begin
        = some (Stack.pushAll {} [2, 4, 6, 8, 10]).end_
    ∧ (({} : Stack Nat).empty = true ∧ ({} : Stack Nat).begin.eq ({} : Stack Nat).end_ = true) := by
  have h := C6_iteration_visits_all (Stack.pushAll {} [2, 4, 6, 8, 10])
  have hs : (Stack.pushAll {} [2, 4, 6, 8, 10]).size = 5 := by decide
  have hd := h.2.2.1 6 (by rw [hs]; decide)
  refine ⟨hs, rfl, ?_, ?_, h.2.1 5 (by rw [hs]; rfl), rfl,
    (C6_iteration_visits_all ({} : Stack Nat)).2.2.2.2 rfl⟩
  · rw [hd.1, hs]
  · rw [hd.2, h.2.2.2.1]
    rfl

/-- C7: for every stack and value, `push(v)` followed by `pop()` returns and gives
back the stack as it was before the push: the same size, the same head and the
same sequence of elements. -/
theorem C7_push_then_pop (s : Stack T) (v : T) :
    (s.push v).pop = some (Except.ok (), s)
    ∧ (s.push_move v).pop = some (Except.ok (), s)
    ∧ ∃ s1, (s.push v).pop = some (Except.ok (), s1)
        ∧ s1.size = s.size ∧ s1.top = s.top ∧ s1.front = s.front
        ∧ s1.toList = s.toList := by
  have h : (s.push v).pop = some (Except.ok (), s) := by
    rw [push_front]
    rfl
  exact ⟨h, h, s, h, rfl, rfl, rfl, rfl⟩

/-- C7 on the default-constructed stack: after `push(6)` and `pop()`, `size()` is 0
and `empty()` is true. -/
theorem C7_push_then_pop_witness :
    ∃ s1, (({} : Stack Nat).push 6).pop = some (Except.ok (), s1)
      ∧ s1.size = 0 ∧ s1.empty = true :=
  ⟨{}, (C7_push_then_pop ({} : Stack Nat) 6).1, rfl, rfl⟩

/-- C8, the code at the stack of the test: the copy constructor applied to the
stack `[10,8,6,4,2]` gives a stack whose head-to-tail sequence is `[2,4,6,8,10]`,
so that the traversal of the copy differs from that of the source. -/
theorem C8_copy_constructor_on_test_stack :
    (Stack.ofList [10, 8, 6, 4, 2]).toList = [10, 8, 6, 4, 2]
    ∧ (Stack.ofList [10, 8, 6, 4, 2]).copy_constructor.toList = [2, 4, 6, 8, 10]
    ∧ traverse 6 (Stack.ofList [10, 8, 6, 4, 2]).copy_constructor.begin
        (Stack.ofList [10, 8, 6, 4, 2]).copy_constructor.end_ = some [2, 4, 6, 8, 10]
    ∧ traverse 6 (Stack.ofList [10, 8, 6, 4, 2]).begin
        (Stack.ofList [10, 8, 6, 4, 2]).end_ = some [10, 8, 6, 4, 2]
    ∧ (Stack.ofList [10, 8, 6, 4, 2]).copy_constructor.toList
        ≠ (Stack.ofList [10, 8, 6, 4, 2]).toList := by
  refine ⟨rfl, rfl, by decide, by decide, by decide⟩

/-- For every source and every destination object distinct from it, whatever the
destination held, copy construction and copy assignment give a destination whose
`size()` is that of the source and leave the source as it was; a `pop()` on the
copy afterwards changes the copy only. -/
theorem copy_keeps_size_and_source_of_ne (σ : Objects T) (dst src : Nat) (h : dst ≠ src) :
    ((σ.copy_construct dst src dst).size = (σ src).size
      ∧ σ.copy_construct dst src src = σ src
      ∧ ∃ r σ1, (σ.copy_construct dst src).pop dst = some (r, σ1)
          ∧ σ1 src = σ src
          ∧ ((σ src).empty = false → r = Except.ok () ∧ (σ1 dst).size = (σ src).size - 1))
    ∧ ((σ.copy_assign dst src dst).size = (σ src).size
      ∧ σ.copy_assign dst src src = σ src
      ∧ ∃ r σ1, (σ.copy_assign dst src).pop dst = some (r, σ1)
          ∧ σ1 src = σ src
          ∧ ((σ src).empty = false → r = Except.ok () ∧ (σ1 dst).size = (σ src).size - 1)) := by
  have key : ∀ σ2 : Objects T, σ2 dst = (σ src).copy_constructor → σ2 src = σ src →
      ∃ r σ1, σ2.pop dst = some (r, σ1) ∧ σ1 src = σ src
        ∧ ((σ src).empty = false → r = Except.ok () ∧ (σ1 dst).size = (σ src).size - 1) := by
    intro σ2 hd hs
    cases hc : (σ src).copy_constructor with
    | mk front =>
      have hlen : ((σ src).copy_constructor).size = (σ src).size := copy_constructor_size _
      rw [hc] at hlen hd
      cases front with
      | nullptr =>
        refine ⟨_, _, by simp only [Objects.pop, hd, pop_nullptr]; rfl, ?_, ?_⟩
        · simp [Function.update, Ne.symm h, hs]
        · intro he
          have h0 : (σ src).size = 0 := by rw [← hlen]; rfl
          have h1 := (empty_iff_size (σ src)).mpr h0
          rw [he] at h1
          exact absurd h1 (by decide)
      | node data next =>
        refine ⟨_, _, by simp only [Objects.pop, hd, pop_node]; rfl, ?_, ?_⟩
        · simp [Function.update, Ne.symm h, hs]
        · intro _
          refine ⟨rfl, ?_⟩
          rw [← hlen]
          simp only [Function.update, dite_true, size_eq_length, Stack.toList,
            NodePtr.toList, List.length_cons]
          push_cast
          ring
  have hcd : σ.copy_construct dst src dst = (σ src).copy_constructor := by
    simp [Objects.copy_construct]
  have hcs : σ.copy_construct dst src src = σ src := by
    simp [Objects.copy_construct, Function.update, Ne.symm h]
  have had : σ.copy_assign dst src dst = (σ src).copy_constructor := by
    simp [Objects.copy_assign, copy_assign_eq]
  have has : σ.copy_assign dst src src = σ src := by
    simp [Objects.copy_assign, Function.update, Ne.symm h]
  refine ⟨⟨?_, hcs, key _ hcd hcs⟩, ⟨?_, has, key _ had has⟩⟩
  · rw [hcd, copy_constructor_size]
  · rw [had, copy_constructor_size]

/-- The copy of the test: `stack` is `[10,8,6,4,2]` at address 0 and `second_list` is
at address 1; after the copy, by construction or by assignment, and a `pop()` on
the copy, the original has `size()` 5 and the copy has `size()` 4. -/
theorem copy_keeps_size_and_source_on_test :
    (1 : Nat) ≠ 0
    ∧ (∃ r σ1, (Objects.copy_construct
            (fun a => if a = 0 then Stack.ofList [10, 8, 6, 4, 2] else {}) 1 0).pop 1
          = some (r, σ1)
        ∧ (σ1 0).size = 5 ∧ (σ1 1).size = 4)
    ∧ (∃ r σ1, (Objects.copy_assign
            (fun a => if a = 0 then Stack.ofList [10, 8, 6, 4, 2] else {}) 1 0).pop 1
          = some (r, σ1)
        ∧ (σ1 0).size = 5 ∧ (σ1 1).size = 4) := by
  have h := copy_keeps_size_and_source_of_ne
    (fun a => if a = 0 then Stack.ofList [10, 8, 6, 4, 2] else {}) 1 0 (by decide)
  refine ⟨by decide, ?_, ?_⟩
  · obtain ⟨r, σ1, h1, h2, h3⟩ := h.1.2.2
    refine ⟨r, σ1, h1, ?_, ?_⟩
    · rw [h2]
      decide
    · rw [(h3 rfl).2]
      decide
  · obtain ⟨r, σ1, h1, h2, h3⟩ := h.2.2.2
    refine ⟨r, σ1, h1, ?_, ?_⟩
    · rw [h2]
      decide
    · rw [(h3 rfl).2]
      decide

/-- C9, the code on the stack `[1,2]`: the copy assignment `s = s`, where the source
is the destination, keeps `size()` 2 and leaves the source holding `[2,1]`, so
its elements are not what they were. -/
theorem C9_self_copy_assign_on_two_elements :
    (Stack.ofList [1, 2]).toList = [1, 2]
    ∧ (Objects.copy_assign (fun _ => Stack.ofList [1, 2]) 0 0 0).size = 2
    ∧ (Objects.copy_assign (fun _ => Stack.ofList [1, 2]) 0 0 0).toList = [2, 1]
    ∧ Objects.copy_assign (fun _ => Stack.ofList [1, 2]) 0 0 0 ≠ Stack.ofList [1, 2] := by
  decide

/-- C10: for every source stack, move construction gives a destination that holds
the chain of the source, so the same values in the same order and the same
`size()`, and leaves the source empty, of size 0. -/
theorem C10_move_constructor (move : Stack T) :
    move.move_constructor.1 = move
    ∧ move.move_constructor.1.toList = move.toList
    ∧ move.move_constructor.1.size = move.size
    ∧ move.move_constructor.2.empty = true
    ∧ move.move_constructor.2.size = 0
    ∧ move.move_constructor.2.toList = [] :=
  ⟨rfl, rfl, rfl, rfl, rfl, rfl⟩

/-- C10 on the stack `[10,8,6,4,2]`: after the move construction the source is
empty and the destination has `size()` 5. -/
theorem C10_move_constructor_witness :
    (Stack.ofList [10, 8, 6, 4, 2]).move_constructor.2.empty = true
    ∧ (Stack.ofList [10, 8, 6, 4, 2]).move_constructor.1.size = 5 :=
  ⟨(C10_move_constructor (Stack.ofList [10, 8, 6, 4, 2])).2.2.2.1,
    ((C10_move_constructor (Stack.ofList [10, 8, 6, 4, 2])).2.2.1).trans (by decide)⟩

/-- C11, as the claim states it, fails: with a destination `[1]` and a source `[2]`,
`d = std::move(s)` gives the destination `[2]` and leaves the source holding `[1]`,
so neither empty nor of size 0. -/
theorem C11_move_assign_source_not_empty :
    ((Stack.ofList [1]).move_assign (Stack.ofList [2])).1.toList = [2]
    ∧ ((Stack.ofList [1]).move_assign (Stack.ofList [2])).2.toList = [1]
    ∧ ¬ ((Stack.ofList [1]).move_assign (Stack.ofList [2])).2.empty = true
    ∧ ¬ ((Stack.ofList [1]).move_assign (Stack.ofList [2])).2.size = 0 := by
  decide

/-- C11, amended: for every destination `d` and source `s`, `d = std::move(s)`
gives `d` the sequence that `s` had, and leaves `s` empty, of size 0, when `d` was
empty before the assignment. -/
theorem C11_move_assign_transfers (d s : Stack T) :
    ((d.move_assign s).1.toList = s.toList ∧ (d.move_assign s).1.size = s.size)
    ∧ (d.empty = true →
        (d.move_assign s).2.empty = true ∧ (d.move_assign s).2.size = 0) := by
  refine ⟨⟨rfl, rfl⟩, ?_⟩
  intro h
  have h1 : (d.move_assign s).2 = d := rfl
  rw [h1]
  exact ⟨h, (empty_iff_size d).mp h⟩

/-- C11 amended, on an empty destination and the source `[10,8,6,4,2]`: the
destination has `size()` 5 and the source is left empty, of size 0. -/
theorem C11_move_assign_transfers_witness :
    ({} : Stack Nat).empty = true
    ∧ (({} : Stack Nat).move_assign (Stack.ofList [10, 8, 6, 4, 2])).1.toList
        = [10, 8, 6, 4, 2]
    ∧ (({} : Stack Nat).move_assign (Stack.ofList [10, 8, 6, 4, 2])).2.empty = true
    ∧ (({} : Stack Nat).move_assign (Stack.ofList [10, 8, 6, 4, 2])).2.size = 0 :=
  ⟨rfl,
    (C11_move_assign_transfers ({} : Stack Nat) (Stack.ofList [10, 8, 6, 4, 2])).1.1,
    (C11_move_assign_transfers ({} : Stack Nat) (Stack.ofList [10, 8, 6, 4, 2])).2 rfl⟩

/-- C12: for every pair of stacks, `a.swap(b)` and the free `swap(a, b)` return (they
are total, as `noexcept` says) with the contents exchanged: `a` holds what `b` held
and `b` what `a` held; swapping twice gives back both stacks.  On objects, the
same holds when `a` and `b` are one object, and no other object is changed. -/
theorem C12_swap_exchanges (a b : Stack T) :
    (a.swap b = (b, a)
      ∧ (a.swap b).1.toList = b.toList ∧ (a.swap b).2.toList = a.toList
      ∧ (a.swap b).1.swap (a.swap b).2 = (a, b))
    ∧ (swap a b = (b, a)
      ∧ (swap a b).1.toList = b.toList ∧ (swap a b).2.toList = a.toList
      ∧ swap (swap a b).1 (swap a b).2 = (a, b))
    ∧ ∀ (σ : Objects T) (x y : Nat),
        σ.swap x y x = σ y ∧ σ.swap x y y = σ x
          ∧ (∀ z, z ≠ x → z ≠ y → σ.swap x y z = σ z)
          ∧ (σ.swap x y).swap x y = σ := by
  refine ⟨⟨rfl, rfl, rfl, rfl⟩, ⟨rfl, rfl, rfl, rfl⟩, ?_⟩
  intro σ x y
  refine ⟨objects_swap_fst σ x y, objects_swap_snd σ x y,
    fun z hx hy => objects_swap_other σ x y z hx hy, ?_⟩
  funext z
  by_cases hx : z = x
  · rw [hx, objects_swap_fst, objects_swap_snd]
  · by_cases hy : z = y
    · rw [hy, objects_swap_snd, objects_swap_fst]
    · rw [objects_swap_other _ x y z hx hy, objects_swap_other _ x y z hx hy]

/-- C12 on the stacks `[1,2]` and `[3]`: after the swap the first holds `[3]` and the
second `[1,2]`, and a second swap restores them. -/
theorem C12_swap_exchanges_witness :
    ((Stack.ofList [1, 2]).swap (Stack.ofList [3])).1.toList = [3]
    ∧ ((Stack.ofList [1, 2]).swap (Stack.ofList [3])).2.toList = [1, 2]
    ∧ swap (swap (Stack.ofList [1, 2]) (Stack.ofList [3])).1
        (swap (Stack.ofList [1, 2]) (Stack.ofList [3])).2
        = (Stack.ofList [1, 2], Stack.ofList [3]) :=
  ⟨(C12_swap_exchanges (Stack.ofList [1, 2]) (Stack.ofList [3])).1.2.1,
    (C12_swap_exchanges (Stack.ofList [1, 2]) (Stack.ofList [3])).1.2.2.1,
    (C12_swap_exchanges (Stack.ofList [1, 2]) (Stack.ofList [3])).2.1.2.2.2⟩

/-- C13, the code on the stack `[1,2]`: the mutable `before_begin()` loses its flag
when it is converted to the `const_iterator` that `emplace` takes, so that
`emplace(before_begin(), 9)` inserts after the head and gives `[1,9,2]`, not
`[9,1,2]`, with an iterator that is not `begin()`. -/
theorem C13_emplace_before_begin_on_two_elements :
    (Stack.ofList [1, 2]).before_begin.before_begin = true
    ∧ (Stack.ofList [1, 2]).before_begin.to_const_iterator.before_begin = false
    ∧ (Stack.ofList [1, 2]).emplace (Stack.ofList [1, 2]).before_begin.to_const_iterator 9
        = some (Stack.ofList [1, 9, 2], some { node := NodePtr.ofList [9, 2] })
    ∧ (Stack.ofList [1, 9, 2]).toList ≠ 9 :: (Stack.ofList [1, 2]).toList
    ∧ ({ node := NodePtr.ofList [9, 2] } : Stack.iterator Nat).eq (Stack.ofList [1, 9, 2]).begin
        = false := by
  decide

/-- C14: for every stack and every position at a node that has a successor, the node
of index `i` reached by `i` increments from `cbegin()` or from `begin()` (then
converted), `emplace(position, v)` returns with `v` inserted just after that
node: the sequence is the previous one with `v` inserted at index `i + 1`, so
`size()` is one more and the other elements keep their values and order, and
the iterator returned is at the new element, which it dereferences to. -/
theorem C14_emplace_after_node [DecidableEq T] (s : Stack T) (i : Nat) (v : T)
    (pos : Stack.const_iterator T) (hi : i + 1 < s.toList.length)
    (hpos : Stack.const_iterator.advance i s.cbegin = some pos
      ∨ ∃ it, Stack.iterator.advance i s.begin = some it ∧ pos = it.to_const_iterator) :
    ∃ s1 it, s.emplace pos v = some (s1, some it)
      ∧ s1.toList = s.toList.insertIdx (i + 1) v
      ∧ s1.toList = s.toList.take (i + 1) ++ v :: s.toList.drop (i + 1)
      ∧ s1.size = s.size + 1
      ∧ it.deref = some v
      ∧ it.ne s1.end_ = true
      ∧ Stack.iterator.advance (i + 1) s1.begin = some it := by
  have hp := position_at_index s i pos (by omega) hpos
  have hL : (NodePtr.ofList (s.toList.take (i + 1) ++ v :: s.toList.drop (i + 1))).toList
      = s.toList.take (i + 1) ++ v :: s.toList.drop (i + 1) := nodePtr_toList_ofList _
  have hlen : (s.toList.take (i + 1)).length = i + 1 := by
    rw [List.length_take]
    omega
  have hn : (s.toList.take (i + 1) ++ v :: s.toList.drop (i + 1)).length
      = s.toList.length + 1 := by
    rw [List.length_append, List.length_cons, hlen, List.length_drop]
    omega
  refine ⟨{ front := NodePtr.ofList (s.toList.take (i + 1) ++ v :: s.toList.drop (i + 1)) },
    { node := NodePtr.ofList (v :: s.toList.drop (i + 1)) }, ?_, ?_, hL, ?_, rfl, ?_, ?_⟩
  · rw [hp]
    exact emplace_at_index s i v hi
  · rw [insertIdx_eq_take_append _ _ _ (by omega)]
    exact hL
  · rw [size_eq_length, size_eq_length]
    have h1 : (Stack.toList
        { front := NodePtr.ofList (s.toList.take (i + 1) ++ v :: s.toList.drop (i + 1)) }).length
        = s.toList.length + 1 := by
      rw [← hn]
      exact congrArg List.length hL
    rw [h1]
    push_cast
    ring
  · simp [NodePtr.ofList, Stack.iterator.ne, Stack.iterator.eq, Stack.end_]
  · have hadv := advance_node
      (NodePtr.ofList (s.toList.take (i + 1) ++ v :: s.toList.drop (i + 1))) (i + 1)
      (by rw [hL, hn]; omega)
    have hdrop : (s.toList.take (i + 1) ++ v :: s.toList.drop (i + 1)).drop (i + 1)
        = v :: s.toList.drop (i + 1) := List.drop_left' hlen
    rw [hL, hdrop] at hadv
    exact hadv

/-- C14 on the stack `[1,2,3]` and the node of index 1: `emplace` of 9 gives
`[1,2,9,3]`, of size 4, and an iterator that dereferences to 9. -/
theorem C14_emplace_after_node_witness :
    1 + 1 < (Stack.ofList [1, 2, 3]).toList.length
    ∧ Stack.const_iterator.advance 1 (Stack.ofList [1, 2, 3]).cbegin
        = some { node := NodePtr.ofList [2, 3] }
    ∧ ∃ s1 it, (Stack.ofList [1, 2, 3]).emplace { node := NodePtr.ofList [2, 3] } 9
          = some (s1, some it)
        ∧ s1.toList = [1, 2, 9, 3] ∧ s1.size = 4 ∧ it.deref = some 9 := by
  refine ⟨by decide, rfl, ?_⟩
  obtain ⟨s1, it, h1, h2, _, h4, h5, _, _⟩ :=
    C14_emplace_after_node (Stack.ofList [1, 2, 3]) 1 9 { node := NodePtr.ofList [2, 3] }
      (by decide) (Or.inl rfl)
  refine ⟨s1, it, h1, ?_, ?_, h5⟩
  · rw [h2]
    rfl
  · rw [h4]
    decide

/-- C15: for every stack, the empty one included, `before_begin()` is not equal to
`begin()`, two iterators are equal exactly when they have the same node and the
same before-begin flag, and one increment of `before_begin()` gives `begin()`,
which is `end()` on an empty stack; the same holds of `cbefore_begin()`,
`cbegin()` and `cend()`. -/
theorem C15_before_begin_distinct [DecidableEq T] (s : Stack T) :
    (s.before_begin.eq s.begin = false ∧ s.before_begin.ne s.begin = true
      ∧ (∀ a b : Stack.iterator T,
          a.eq b = true ↔ a.node = b.node ∧ a.before_begin = b.before_begin)
      ∧ s.before_begin.increment = some s.begin
      ∧ (∃ it, s.before_begin.increment = some it ∧ it.eq s.begin = true)
      ∧ (s.empty = true → s.begin = s.end_ ∧ s.begin.eq s.end_ = true))
    ∧ (s.cbefore_begin.eq s.cbegin = false ∧ s.cbefore_begin.ne s.cbegin = true
      ∧ (∀ a b : Stack.const_iterator T,
          a.eq b = true ↔ a.node = b.node ∧ a.before_begin = b.before_begin)
      ∧ s.cbefore_begin.increment = some s.cbegin
      ∧ (∃ it, s.cbefore_begin.increment = some it ∧ it.eq s.cbegin = true)
      ∧ (s.empty = true → s.cbegin = s.cend ∧ s.cbegin.eq s.cend = true)) := by
  refine ⟨⟨?_, ?_, ?_, rfl, ⟨_, rfl, ?_⟩, ?_⟩, ⟨?_, ?_, ?_, rfl, ⟨_, rfl, ?_⟩, ?_⟩⟩
  · simp [Stack.iterator.eq, Stack.before_begin, Stack.begin]
  · simp [Stack.iterator.ne, Stack.iterator.eq, Stack.before_begin, Stack.begin]
  · intro a b
    simp [Stack.iterator.eq]
  · simp [Stack.iterator.eq, Stack.before_begin, Stack.begin]
  · intro h
    obtain ⟨front⟩ := s
    cases front with
    | nullptr => simp [Stack.begin, Stack.end_, Stack.iterator.eq]
    | node data next => simp [Stack.empty, NodePtr.isNonNull] at h
  · simp [Stack.const_iterator.eq, Stack.cbefore_begin, Stack.before_begin_const,
      Stack.cbegin, Stack.begin_const]
  · simp [Stack.const_iterator.ne, Stack.const_iterator.eq, Stack.cbefore_begin,
      Stack.before_begin_const, Stack.cbegin, Stack.begin_const]
  · intro a b
    simp [Stack.const_iterator.eq]
  · simp [Stack.const_iterator.eq, Stack.cbefore_begin, Stack.before_begin_const,
      Stack.cbegin, Stack.begin_const]
  · intro h
    obtain ⟨front⟩ := s
    cases front with
    | nullptr =>
      simp [Stack.cbegin, Stack.begin_const, Stack.cend, Stack.end_const,
        Stack.const_iterator.eq]
    | node data next => simp [Stack.empty, NodePtr.isNonNull] at h

/-- C15 on the empty stack: `before_begin()` and `begin()` have the same null node
and differ, and the increment of `before_begin()` is `begin()`, equal to `end()`. -/
theorem C15_before_begin_distinct_witness :
    ({} : Stack Nat).empty = true
    ∧ ({} : Stack Nat).before_begin.node = ({} : Stack Nat).begin.node
    ∧ ({} : Stack Nat).before_begin.ne ({} : Stack Nat).begin = true
    ∧ ({} : Stack Nat).before_begin.increment = some ({} : Stack Nat).begin
    ∧ ({} : Stack Nat).begin.eq ({} : Stack Nat).end_ = true
    ∧ ({} : Stack Nat).cbegin.eq ({} : Stack Nat).cend = true :=
  ⟨rfl, rfl, (C15_before_begin_distinct ({} : Stack Nat)).1.2.1,
    (C15_before_begin_distinct ({} : Stack Nat)).1.2.2.2.1,
    ((C15_before_begin_distinct ({} : Stack Nat)).1.2.2.2.2.2 rfl).2,
    ((C15_before_begin_distinct ({} : Stack Nat)).2.2.2.2.2.2 rfl).2⟩

/-- C16: for every stack and every value that occurs in it, the linear search of
`std::find` from `begin()` to `end()` returns an iterator that differs from
`end()`, dereferences to the value and is at its first occurrence from the head;
for a value that does not occur it returns `end()`.  Any fuel above `size()` is
enough for the loop to return. -/
theorem C16_find_locates [DecidableEq T] (s : Stack T) (v : T) (fuel : Nat)
    (hf : s.size < (fuel : Int)) :
    (v ∈ s.toList →
      ∃ it, find fuel s.begin s.end_ v = some it
        ∧ it.ne s.end_ = true
        ∧ it.deref = some v
        ∧ Stack.iterator.advance (s.toList.indexOf v) s.begin = some it
        ∧ s.toList[s.toList.indexOf v]? = some v
        ∧ ∀ j, j < s.toList.indexOf v → s.toList[j]? ≠ some v)
    ∧ (v ∉ s.toList → find fuel s.begin s.end_ v = some s.end_) := by
  rw [size_eq_length] at hf
  have hf1 : s.front.toList.length < fuel := by exact_mod_cast hf
  have hfind : find fuel s.begin s.end_ v
      = some { node := NodePtr.ofList (s.toList.drop (s.toList.indexOf v)) } :=
    find_node s.front fuel v hf1
  constructor
  · intro hv
    have hk : s.toList.indexOf v < s.toList.length := List.indexOf_lt_length.mpr hv
    have hget : s.toList[s.toList.indexOf v] = v := List.getElem_indexOf hk
    have hdrop : s.toList.drop (s.toList.indexOf v)
        = v :: s.toList.drop (s.toList.indexOf v + 1) := by
      rw [List.drop_eq_getElem_cons hk, hget]
    refine ⟨_, hfind, ?_, ?_, advance_node s.front _ (Nat.le_of_lt hk), ?_,
      fun j hj => getElem?_ne_of_lt_indexOf s.toList v j hj⟩
    · rw [hdrop]
      simp [NodePtr.ofList, Stack.iterator.ne, Stack.iterator.eq, Stack.end_]
    · rw [hdrop]
      rfl
    · rw [List.getElem?_eq_getElem hk, hget]
  · intro hv
    rw [hfind, List.indexOf_of_not_mem hv, List.drop_length]
    rfl

/-- C16 on the stack made by pushing 2, 4, 6, 8, 10: the search for 4 returns an
iterator that is not `end()` and dereferences to 4; the search for 5 returns
`end()`. -/
theorem C16_find_locates_witness :
    (Stack.pushAll {} [2, 4, 6, 8, 10]).size < ((6 : Nat) : Int)
    ∧ 4 ∈ (Stack.pushAll {} [2, 4, 6, 8, 10]).toList
    ∧ (∃ found, find 6 (Stack.pushAll {} [2, 4, 6, 8, 10]).begin
            (Stack.pushAll {} [2, 4, 6, 8, 10]).end_ 4 = some found
        ∧ found.ne (Stack.pushAll {} [2, 4, 6, 8, 10]).end_ = true
        ∧ found.deref = some 4)
    ∧ find 6 (Stack.pushAll {} [2, 4, 6, 8, 10]).begin
        (Stack.pushAll {} [2, 4, 6, 8, 10]).end_ 5
        = some (Stack.pushAll {} [2, 4, 6, 8, 10]).end_ := by
  have h4 := C16_find_locates (Stack.pushAll {} [2, 4, 6, 8, 10]) 4 6 (by decide)
  have h5 := C16_find_locates (Stack.pushAll {} [2, 4, 6, 8, 10]) 5 6 (by decide)
  refine ⟨by decide, by decide, ?_, h5.2 (by decide)⟩
  obtain ⟨it, h1, h2, h3, _⟩ := h4.1 (by decide)
  exact ⟨it, h1, h2, h3⟩

/-- C17: for every source stack, the copy constructor gives a stack whose
head-to-tail sequence is the reverse of that of the source, so that the copy of a
copy is the source again; copy assignment leaves the destination holding the
reverse of the sequence of the source, also when source and destination are the
same object. -/
theorem C17_copy_reverses (source : Stack T) :
    source.copy_constructor.toList = source.toList.reverse
    ∧ source.copy_constructor.copy_constructor.toList = source.toList
    ∧ source.copy_constructor.copy_constructor = source
    ∧ (∀ self : Stack T, (self.copy_assign source).toList = source.toList.reverse)
    ∧ (∀ (σ : Objects T) (dst src : Nat), σ src = source →
        (σ.copy_assign dst src dst).toList = source.toList.reverse)
    ∧ (∀ (σ : Objects T) (a : Nat), σ a = source →
        (σ.copy_assign a a a).toList = source.toList.reverse) := by
  have h2 : source.copy_constructor.copy_constructor.toList = source.toList := by
    rw [copy_constructor_toList, copy_constructor_toList, List.reverse_reverse]
  have h4 : ∀ (σ : Objects T) (dst src : Nat), σ src = source →
      (σ.copy_assign dst src dst).toList = source.toList.reverse := by
    intro σ dst src h
    simp only [Objects.copy_assign, Function.update_same]
    rw [copy_assign_toList, h]
  exact ⟨copy_constructor_toList source, h2, eq_of_toList_eq _ _ h2,
    fun self => copy_assign_toList self source, h4, fun σ a h => h4 σ a a h⟩

/-- C17 on the stack `[10,8,6,4,2]`: its copy is `[2,4,6,8,10]`, the copy of the copy
is `[10,8,6,4,2]`, and the self-assignment `s = s` leaves `s` holding
`[2,4,6,8,10]`. -/
theorem C17_copy_reverses_witness :
    (Stack.ofList [10, 8, 6, 4, 2]).copy_constructor.toList = [2, 4, 6, 8, 10]
    ∧ (Stack.ofList [10, 8, 6, 4, 2]).copy_constructor.copy_constructor
        = Stack.ofList [10, 8, 6, 4, 2]
    ∧ (Objects.copy_assign (fun _ => Stack.ofList [10, 8, 6, 4, 2]) 0 0 0).toList
        = [2, 4, 6, 8, 10] :=
  ⟨(C17_copy_reverses (Stack.ofList [10, 8, 6, 4, 2])).1,
    (C17_copy_reverses (Stack.ofList [10, 8, 6, 4, 2])).2.2.1,
    (C17_copy_reverses (Stack.ofList [10, 8, 6, 4, 2])).2.2.2.2.2
      (fun _ => Stack.ofList [10, 8, 6, 4, 2]) 0 rfl⟩

/-- C18: move assignment is a swap: after `dst = std::move(src)` the destination
holds the chain that the source held and the source holds the chain that the
destination held, so the source is empty afterwards exactly when the destination
was empty before; the two chains are those of before, exchanged, so no node of
either stack is released, and no other object changes. -/
theorem C18_move_assign_is_swap (σ : Objects T) (dst src : Nat) :
    (σ.move_assign dst src dst = σ src ∧ σ.move_assign dst src src = σ dst)
    ∧ ((σ.move_assign dst src dst).toList = (σ src).toList
      ∧ (σ.move_assign dst src src).toList = (σ dst).toList)
    ∧ ((σ.move_assign dst src src).empty = true ↔ (σ dst).empty = true)
    ∧ ((σ.move_assign dst src dst).size + (σ.move_assign dst src src).size
        = (σ dst).size + (σ src).size)
    ∧ (∀ z, z ≠ dst → z ≠ src → σ.move_assign dst src z = σ z)
    ∧ (∀ d s : Stack T, d.move_assign s = (s, d)) := by
  have h1 : σ.move_assign dst src dst = σ src := objects_swap_snd σ src dst
  have h2 : σ.move_assign dst src src = σ dst := objects_swap_fst σ src dst
  refine ⟨⟨h1, h2⟩, ⟨by rw [h1], by rw [h2]⟩, by rw [h2], ?_, ?_, fun d s => rfl⟩
  · rw [h1, h2]
    ring
  · intro z hd hs
    exact objects_swap_other σ src dst z hs hd

/-- C18 on a destination `[1]` at address 0 and a source `[2]` at address 1: after
the move assignment the destination holds `[2]` and the source holds `[1]`, so it
is not empty. -/
theorem C18_move_assign_is_swap_witness :
    (Objects.move_assign
        (fun a => if a = 0 then Stack.ofList [1] else Stack.ofList [2]) 0 1 0).toList = [2]
    ∧ (Objects.move_assign
        (fun a => if a = 0 then Stack.ofList [1] else Stack.ofList [2]) 0 1 1).toList = [1]
    ∧ (Objects.move_assign
        (fun a => if a = 0 then Stack.ofList [1] else Stack.ofList [2]) 0 1 1).empty = false := by
  have h := C18_move_assign_is_swap
    (fun a => if a = 0 then Stack.ofList [1] else Stack.ofList [2]) 0 1
  refine ⟨?_, ?_, ?_⟩
  · rw [h.1.1]
    rfl
  · rw [h.1.2]
    rfl
  · rw [h.1.2]
    rfl

/-- C19: the conversion of a mutable iterator to a `const_iterator` keeps the node and
always gives a before-begin flag that is false: for every stack the conversion of
the mutable `before_begin()` is equal to `cbegin()` and not to `cbefore_begin()`,
so `emplace` called with it does what it does at `cbegin()`, the insertion after
the head node: the new element comes second when the head has a successor, and
the call is undefined, not a new head, when the stack has fewer than two
elements. -/
theorem C19_conversion_drops_flag [DecidableEq T] (s : Stack T) :
    (∀ it : Stack.iterator T,
        it.to_const_iterator.node = it.node ∧ it.to_const_iterator.before_begin = false)
    ∧ s.before_begin.before_begin = true
    ∧ s.before_begin.to_const_iterator = s.cbegin
    ∧ s.before_begin.to_const_iterator.eq s.cbegin = true
    ∧ s.before_begin.to_const_iterator.eq s.cbefore_begin = false
    ∧ (∀ v, s.emplace s.before_begin.to_const_iterator v = s.emplace s.cbegin v)
    ∧ (∀ v data e next, s.front = NodePtr.node data (NodePtr.node e next) →
        s.emplace s.before_begin.to_const_iterator v
          = some ({ front := NodePtr.node data (NodePtr.node v (NodePtr.node e next)) },
              some { node := NodePtr.node v (NodePtr.node e next) }))
    ∧ (∀ v, s.toList.length < 2 →
        s.emplace s.before_begin.to_const_iterator v = none) := by
  refine ⟨fun it => ⟨rfl, rfl⟩, rfl, rfl, ?_, ?_, fun v => rfl, ?_, ?_⟩
  · simp [Stack.const_iterator.eq, Stack.iterator.to_const_iterator, Stack.cbegin,
      Stack.begin_const, Stack.before_begin]
  · simp [Stack.const_iterator.eq, Stack.iterator.to_const_iterator, Stack.cbefore_begin,
      Stack.before_begin_const, Stack.before_begin]
  · intro v data e next h
    obtain ⟨front⟩ := s
    simp only at h
    subst h
    simp [Stack.emplace, Stack.iterator.to_const_iterator, Stack.before_begin,
      NodePtr.isNonNull, NodePtr.assignAt]
  · intro v h
    obtain ⟨front⟩ := s
    cases front with
    | nullptr =>
      simp [Stack.emplace, Stack.iterator.to_const_iterator, Stack.before_begin]
    | node data next =>
      cases next with
      | nullptr =>
        simp [Stack.emplace, Stack.iterator.to_const_iterator, Stack.before_begin,
          NodePtr.isNonNull]
      | node e next1 =>
        simp only [Stack.toList, NodePtr.toList, List.length_cons] at h
        omega

/-- C19 on the stack `[1,2]`: the conversion of `before_begin()` equals `cbegin()`,
differs from `cbefore_begin()`, and `emplace` of 9 with it gives `[1,9,2]`. -/
theorem C19_conversion_drops_flag_witness :
    (Stack.ofList [1, 2]).before_begin.to_const_iterator.eq (Stack.ofList [1, 2]).cbegin = true
    ∧ (Stack.ofList [1, 2]).before_begin.to_const_iterator.eq
        (Stack.ofList [1, 2]).cbefore_begin = false
    ∧ (Stack.ofList [1, 2]).emplace (Stack.ofList [1, 2]).before_begin.to_const_iterator 9
        = some (Stack.ofList [1, 9, 2], some { node := NodePtr.ofList [9, 2] }) :=
  ⟨(C19_conversion_drops_flag (Stack.ofList [1, 2])).2.2.2.1,
    (C19_conversion_drops_flag (Stack.ofList [1, 2])).2.2.2.2.1,
    (C19_conversion_drops_flag (Stack.ofList [1, 2])).2.2.2.2.2.2.1 9 1 2 NodePtr.nullptr rfl⟩

/-- C20, the code on the stack `[1,2,3]`: the position reached by two increments of
`cbegin()` is at the last node, with the flag not set and a null `next`, and
`emplace` of 9 with it has no defined result: the test of `pos.node->next` fails
and the body of `emplace` ends without a `return`. -/
theorem C20_emplace_at_last_node_on_three_elements :
    Stack.const_iterator.advance 2 (Stack.ofList [1, 2, 3]).cbegin
        = some { node := NodePtr.ofList [3] }
    ∧ ({ node := NodePtr.ofList [3] } : Stack.const_iterator Nat).before_begin = false
    ∧ (NodePtr.ofList [3]).next? = some NodePtr.nullptr
    ∧ (Stack.ofList [1, 2, 3]).emplace { node := NodePtr.ofList [3] } 9 = none := by
  decide

end GenericStack
